import Mathlib

/-!
Verification of the Rule 111 scanner (`app/app.py`): OPEN DATASET statements
without MODE / ENCODING clauses.

The Python core is embedded shallowly:
  * source text is `List Char`;
  * the regexes `STMT_RE`, `MODE_RE`, `TEXT_MODE_RE`, `ENCODING_RE` are
    embedded as executable matchers (`matchStmtAt`, `matchModeAt`,
    `matchTextModeAt`, `matchEncodingAt`) over ASCII word/space classes
    (the rule's inputs are ABAP source, which is ASCII in the relevant parts);
  * `re.finditer` is `findStmts` (left-to-right, non-overlapping scan);
  * `get_line_snippet`, `scan_unit`, and the two endpoint bodies
    (`scan_rule111_array`, `scan_rule111_single`) are translated directly.
-/

namespace Rule111

/-- Python `\w` on ASCII: letters, digits, underscore. -/
def isWordChar (c : Char) : Bool :=
  ('a' ≤ c && c ≤ 'z') || ('A' ≤ c && c ≤ 'Z') || ('0' ≤ c && c ≤ '9') || c = '_'

/-- Python `\s` on ASCII: space, tab, newline, carriage return, form feed, vertical tab. -/
def isSpaceChar (c : Char) : Bool :=
  c = ' ' || c = '\t' || c = '\n' || c = '\x0d' || c = '\x0c' || c = '\x0b'

/-- ASCII lower-casing, for the `(?i)` flag on every pattern. -/
def lowerChar (c : Char) : Char :=
  if 'A' ≤ c && c ≤ 'Z' then Char.ofNat (c.toNat + 32) else c

/-- Match a literal word (given lower-case) case-insensitively at the head of
the input; return the consumed characters and the rest. -/
def matchLit : List Char → List Char → Option (List Char × List Char)
  | [], cs => some ([], cs)
  | _ :: _, [] => none
  | p :: ps, c :: cs =>
    if lowerChar c = p then (matchLit ps cs).map (fun r => (c :: r.1, r.2)) else none

/-- Split off the longest prefix whose characters satisfy `p`. -/
def takeWhileSplit (p : Char → Bool) : List Char → List Char × List Char
  | [] => ([], [])
  | c :: cs =>
    if p c then
      let r := takeWhileSplit p cs
      (c :: r.1, r.2)
    else ([], c :: cs)

/-- `\s+`: at least one whitespace character. -/
def matchSpaces1 (cs : List Char) : Option (List Char × List Char) :=
  let r := takeWhileSplit isSpaceChar cs
  if r.1.isEmpty then none else some r

/-- `\b` after a word character: the rest is empty or starts with a non-word
character. -/
def wordBoundary (cs : List Char) : Bool :=
  match cs with
  | [] => true
  | c :: _ => !isWordChar c

/-- The opening keyword phrase `OPEN\s+DATASET\b` of `STMT_RE`, matched at the
head of the input (the leading `\b` is checked by the caller). -/
def matchOpenPhrase (cs : List Char) : Option (List Char × List Char) :=
  (matchLit "open".data cs).bind fun a =>
  (matchSpaces1 a.2).bind fun b =>
  (matchLit "dataset".data b.2).bind fun c =>
  if wordBoundary c.2 then some (a.1 ++ b.1 ++ c.1, c.2) else none

/-- `STMT_RE = (?is)\bOPEN\s+DATASET\b[^.]*\.` matched at the head of the
input: the opening phrase, then the longest period-free run, then the closing
period. Returns the statement text and the rest. -/
def matchStmtAt (cs : List Char) : Option (List Char × List Char) :=
  (matchOpenPhrase cs).bind fun a =>
  let t := takeWhileSplit (fun c => c ≠ '.') a.2
  match t.2 with
  | [] => none
  | c :: rest => if c = '.' then some (a.1 ++ t.1 ++ [c], rest) else none

/-- One step of `re.finditer`: scan the remaining text (whose first character
sits at offset `pos` of the unit text), trying `matchStmtAt` at every position
whose preceding character is not a word character (`prevW` tracks that, for the
leading `\b`); on a match, emit its span and resume right after it.  Every
match ends with a period, a non-word character, so `prevW` resumes as `false`.
`fuel` only bounds the recursion; `findStmts` supplies enough. -/
def scanFrom (fuel : Nat) (prevW : Bool) (pos : Nat) (text : List Char) :
    List (Nat × Nat) :=
  match fuel, text with
  | 0, _ => []
  | _ + 1, [] => []
  | fuel + 1, c :: cs =>
    if prevW then scanFrom fuel (isWordChar c) (pos + 1) cs
    else
      match matchStmtAt (c :: cs) with
      | some (stmt, rest) =>
        (pos, pos + stmt.length) :: scanFrom fuel false (pos + stmt.length) rest
      | none => scanFrom fuel (isWordChar c) (pos + 1) cs

/-- `STMT_RE.finditer(src)`: the spans `(m.start(), m.end())` of all
non-overlapping statement matches, left to right. -/
def findStmts (text : List Char) : List (Nat × Nat) :=
  scanFrom text.length false 0 text

/-- Generic `re.search` for a pattern beginning with `\b` and a word
character: try `p` at every position whose previous character is not a word
character. -/
def searchAt (p : List Char → Bool) : Bool → List Char → Bool
  | _, [] => false
  | prevW, c :: cs => (!prevW && p (c :: cs)) || searchAt p (isWordChar c) cs

/-- `MODE_RE = (?i)\bIN\s+(TEXT|BINARY)\s+MODE\b` matched at the head. -/
def matchModeAt (cs : List Char) : Bool :=
  match matchLit "in".data cs with
  | none => false
  | some (_, r1) =>
    match matchSpaces1 r1 with
    | none => false
    | some (_, r2) =>
      let afterKw : Option (List Char) :=
        match matchLit "text".data r2 with
        | some (_, r3) => some r3
        | none =>
          match matchLit "binary".data r2 with
          | some (_, r3) => some r3
          | none => none
      match afterKw with
      | none => false
      | some r3 =>
        match matchSpaces1 r3 with
        | none => false
        | some (_, r4) =>
          match matchLit "mode".data r4 with
          | none => false
          | some (_, r5) => wordBoundary r5

/-- `TEXT_MODE_RE = (?i)\bIN\s+TEXT\s+MODE\b` matched at the head. -/
def matchTextModeAt (cs : List Char) : Bool :=
  match matchLit "in".data cs with
  | none => false
  | some (_, r1) =>
    match matchSpaces1 r1 with
    | none => false
    | some (_, r2) =>
      match matchLit "text".data r2 with
      | none => false
      | some (_, r3) =>
        match matchSpaces1 r3 with
        | none => false
        | some (_, r4) =>
          match matchLit "mode".data r4 with
          | none => false
          | some (_, r5) => wordBoundary r5

/-- `ENCODING_RE = (?i)\bENCODING\b\s+\S+` matched at the head: the keyword,
its trailing word boundary, at least one whitespace character, then at least
one non-whitespace character. -/
def matchEncodingAt (cs : List Char) : Bool :=
  match matchLit "encoding".data cs with
  | none => false
  | some (_, r1) =>
    wordBoundary r1 &&
      match matchSpaces1 r1 with
      | none => false
      | some (_, r2) =>
        match r2 with
        | [] => false
        | c :: _ => !isSpaceChar c

/-- `MODE_RE.search(stmt) is not None`. -/
def searchMode (l : List Char) : Bool := searchAt matchModeAt false l

/-- `TEXT_MODE_RE.search(stmt) is not None`. -/
def searchTextMode (l : List Char) : Bool := searchAt matchTextModeAt false l

/-- `ENCODING_RE.search(stmt) is not None`. -/
def searchEncoding (l : List Char) : Bool := searchAt matchEncodingAt false l

/-- The whole-word phrase search used to state "text contains no
`OPEN DATASET` occurrence": `matchOpenPhrase` tried at every position allowed
by the leading `\b`. -/
def hasOpenDataset (text : List Char) : Bool :=
  searchAt (fun cs => (matchOpenPhrase cs).isSome) false text

/-- `str.count("\n")`. -/
def countNl (l : List Char) : Nat := (l.filter (fun c => c = '\n')).length

/-- Index of the last newline of `l`, as Python `l.rfind("\n")` (but `none`
for `-1`). -/
def lastNlIdx (l : List Char) : Option Nat :=
  match l.reverse.findIdx? (fun c => c = '\n') with
  | none => none
  | some j => some (l.length - 1 - j)

/-- `get_line_snippet(text, start, end)`: the full line(s) spanning the match,
from just after the last newline before `s` (or text start) to just before the
first newline at or after `e` (or text end). -/
def get_line_snippet (text : List Char) (s e : Nat) : List Char :=
  let ls : Nat :=
    match lastNlIdx (text.take s) with
    | none => 0
    | some i => i + 1
  let le : Nat :=
    match (text.drop e).findIdx? (fun c => c = '\n') with
    | none => text.length
    | some j => e + j
  (text.drop ls).take (le - ls)

/-- `snippet_line.replace("\n", "\\n")`. -/
def escapeNewlines : List Char → List Char
  | [] => []
  | c :: cs =>
    if c = '\n' then '\\' :: 'n' :: escapeNewlines cs else c :: escapeNewlines cs

/-- The `Finding` pydantic model, with the fields as `scan_unit` always fills
them. -/
structure Finding where
  prog_name : String
  incl_name : String
  types : String
  blockname : Option String
  starting_line : Int
  ending_line : Int
  issues_type : String
  severity : String
  message : String
  suggestion : String
  snippet : String
deriving DecidableEq

/-- The `Unit` pydantic model. Optional fields keep their Python
optionality. -/
structure Unit where
  pgm_name : String
  inc_name : String
  type : String
  name : Option String := some ""
  start_line : Option Int := some 0
  end_line : Option Int := some 0
  code : Option String := some ""
  findings : Option (List Finding) := none
deriving DecidableEq

/-- `unit.code or ""`, as a character list. -/
def srcOf (u : Unit) : List Char := (u.code.getD "").data

/-- `src[:stmt_start].count("\n") + 1`. -/
def lineInBlock (src : List Char) (s : Nat) : Nat := countNl (src.take s) + 1

/-- `snippet_line.count("\n") + 1`. -/
def snippetLineCount (src : List Char) (s e : Nat) : Nat :=
  countNl (get_line_snippet src s e) + 1

/-- `starting_line_abs = base_start + line_in_block` with
`base_start = unit.start_line or 0`. -/
def startingLineAbs (u : Unit) (src : List Char) (s : Nat) : Int :=
  u.start_line.getD 0 + (lineInBlock src s : Int)

/-- `ending_line_abs = base_start + line_in_block + snippet_line_count`. -/
def endingLineAbs (u : Unit) (src : List Char) (s e : Nat) : Int :=
  u.start_line.getD 0 + (lineInBlock src s : Int) + (snippetLineCount src s e : Int)

/-- The statement text `m.group(0)` of a span. -/
def stmtText (src : List Char) (s e : Nat) : List Char := (src.drop s).take (e - s)

def msgNoMode : String :=
  "OPEN DATASET without MODE. Specify IN TEXT MODE or IN BINARY MODE and, for text, an explicit ENCODING."

def sugNoMode : String :=
  "OPEN DATASET lv_file FOR OUTPUT IN TEXT MODE ENCODING UTF-8.\n* or *\nOPEN DATASET lv_file FOR INPUT IN BINARY MODE."

def msgTextNoEnc : String :=
  "OPEN DATASET in TEXT MODE without explicit ENCODING."

def sugTextNoEnc : String :=
  "Add ENCODING UTF-8 (or the required code page)."

/-- The `Finding(...)` constructor calls inside `scan_unit`, shared shape. -/
def mkFinding (u : Unit) (src : List Char) (s e : Nat) (kind msg sug : String) :
    Finding where
  prog_name := u.pgm_name
  incl_name := u.inc_name
  types := u.type
  blockname := u.name
  starting_line := startingLineAbs u src s
  ending_line := endingLineAbs u src s e
  issues_type := kind
  severity := "error"
  message := msg
  suggestion := sug
  snippet := String.mk (escapeNewlines (get_line_snippet src s e))

/-- The loop body of `scan_unit` for one match span: zero or one finding.
`if not has_mode: ... continue` then `if is_text_mode and not has_encoding`. -/
def classifySpan (u : Unit) (src : List Char) (s e : Nat) : Option Finding :=
  let stmt := stmtText src s e
  if !searchMode stmt then
    some (mkFinding u src s e "OpenDatasetNoMode" msgNoMode sugNoMode)
  else if searchTextMode stmt && !searchEncoding stmt then
    some (mkFinding u src s e "OpenDatasetTextNoEncoding" msgTextNoEnc sugTextNoEnc)
  else none

/-- `scan_unit`: run the statement scan over the unit's code, classify each
match, and return a copy of the unit carrying the computed findings. -/
def scan_unit (u : Unit) : Unit :=
  { u with
    findings :=
      some ((findStmts (srcOf u)).filterMap
        (fun p => classifySpan u (srcOf u) p.1 p.2)) }

/-- The `/remediate-array` endpoint body: scan each unit in order, keep only
results with a non-empty findings list. -/
def scan_rule111_array : List Unit → List Unit
  | [] => []
  | u :: us =>
    let res := scan_unit u
    if (res.findings.getD []).isEmpty then scan_rule111_array us
    else res :: scan_rule111_array us

/-- The `/remediate` endpoint body: always return the scanned unit. -/
def scan_rule111_single (u : Unit) : Unit := scan_unit u

/-! Concrete units used to instantiate the theorems below. -/

def uEmpty : Unit := { pgm_name := "P", inc_name := "I", type := "T" }

def uA : Unit :=
  { pgm_name := "P", inc_name := "I", type := "T", name := some "A",
    code := some "WRITE A." }

def uB : Unit :=
  { pgm_name := "P", inc_name := "I", type := "T", name := some "B",
    code := some "OPEN DATASET F." }

def uC : Unit :=
  { pgm_name := "P", inc_name := "I", type := "T", name := some "C",
    code := some "OPEN DATASET G IN BINARY MODE." }

def uTextNoEnc : Unit :=
  { pgm_name := "P", inc_name := "I", type := "T", name := some "B",
    code := some "OPEN DATASET F IN TEXT MODE." }

def u10 : Unit :=
  { pgm_name := "P", inc_name := "I", type := "T", name := some "B",
    start_line := some 10, code := some "A.\nOPEN DATASET F.\n" }

def u5 : Unit :=
  { pgm_name := "P", inc_name := "I", type := "T", name := some "B",
    code := some "X.\nOPEN DATASET\nF." }

def f10 : Finding := mkFinding u10 (srcOf u10) 3 18 "OpenDatasetNoMode" msgNoMode sugNoMode

def f5 : Finding := mkFinding u5 (srcOf u5) 3 18 "OpenDatasetNoMode" msgNoMode sugNoMode

/-! Helper lemmas about the matchers. -/

theorem matchLit_spec {p cs a r} (h : matchLit p cs = some (a, r)) :
    a ++ r = cs ∧ a.length = p.length ∧ ∀ c ∈ a, lowerChar c ∈ p := by
  induction p generalizing cs a r with
  | nil =>
    simp only [matchLit, Option.some.injEq, Prod.mk.injEq] at h
    obtain ⟨rfl, rfl⟩ := h
    simp
  | cons q ps ih =>
    match cs with
    | [] => simp [matchLit] at h
    | c :: cs' =>
      simp only [matchLit] at h
      by_cases hc : lowerChar c = q
      · rw [if_pos hc] at h
        match hm : matchLit ps cs' with
        | none => rw [hm] at h; simp at h
        | some (a', r') =>
          rw [hm] at h
          simp only [Option.map_some', Option.some.injEq, Prod.mk.injEq] at h
          obtain ⟨rfl, rfl⟩ := h
          obtain ⟨he, hl, hmem⟩ := ih hm
          refine ⟨by simp [he], by simp [hl], ?_⟩
          intro x hx
          rcases List.mem_cons.mp hx with rfl | hx
          · exact hc ▸ List.mem_cons_self _ _
          · exact List.mem_cons_of_mem _ (hmem x hx)
      · rw [if_neg hc] at h; exact absurd h (by simp)

theorem takeWhileSplit_spec {p : Char → Bool} {cs a r : List Char}
    (h : takeWhileSplit p cs = (a, r)) :
    a ++ r = cs ∧ ∀ c ∈ a, p c = true := by
  induction cs generalizing a r with
  | nil =>
    simp only [takeWhileSplit, Prod.mk.injEq] at h
    obtain ⟨rfl, rfl⟩ := h
    simp
  | cons c cs' ih =>
    simp only [takeWhileSplit] at h
    by_cases hc : p c
    · rw [if_pos hc] at h
      match ht : takeWhileSplit p cs' with
      | (a', r') =>
        rw [ht] at h
        simp only [Prod.mk.injEq] at h
        obtain ⟨rfl, rfl⟩ := h
        obtain ⟨he, hmem⟩ := ih ht
        refine ⟨by simp [he], ?_⟩
        intro x hx
        rcases List.mem_cons.mp hx with rfl | hx
        · exact hc
        · exact hmem x hx
    · rw [if_neg hc] at h
      simp only [Prod.mk.injEq] at h
      obtain ⟨rfl, rfl⟩ := h
      simp

theorem matchSpaces1_spec {cs a r} (h : matchSpaces1 cs = some (a, r)) :
    a ++ r = cs ∧ a ≠ [] ∧ ∀ c ∈ a, isSpaceChar c = true := by
  unfold matchSpaces1 at h
  by_cases he : (takeWhileSplit isSpaceChar cs).1.isEmpty
  · rw [if_pos he] at h; exact absurd h (by simp)
  · rw [if_neg he] at h
    simp only [Option.some.injEq] at h
    have ht := @takeWhileSplit_spec isSpaceChar cs
      (takeWhileSplit isSpaceChar cs).1 (takeWhileSplit isSpaceChar cs).2 rfl
    rw [h] at ht he
    exact ⟨ht.1, by simpa using he, ht.2⟩

theorem matchOpenPhrase_spec {cs a r} (h : matchOpenPhrase cs = some (a, r)) :
    a ++ r = cs ∧ a ≠ [] ∧ '.' ∉ a := by
  unfold matchOpenPhrase at h
  match h1 : matchLit "open".data cs with
  | none => rw [h1] at h; simp at h
  | some (a1, r1) =>
    rw [h1] at h
    simp only [Option.some_bind] at h
    match h2 : matchSpaces1 r1 with
    | none => rw [h2] at h; simp at h
    | some (a2, r2) =>
      rw [h2] at h
      simp only [Option.some_bind] at h
      match h3 : matchLit "dataset".data r2 with
      | none => rw [h3] at h; simp at h
      | some (a3, r3) =>
        rw [h3] at h
        simp only [Option.some_bind] at h
        by_cases hw : wordBoundary r3
        · rw [if_pos hw] at h
          simp only [Option.some.injEq, Prod.mk.injEq] at h
          obtain ⟨rfl, rfl⟩ := h
          obtain ⟨e1, l1, m1⟩ := matchLit_spec h1
          obtain ⟨e2, n2, m2⟩ := matchSpaces1_spec h2
          obtain ⟨e3, l3, m3⟩ := matchLit_spec h3
          refine ⟨?_, ?_, ?_⟩
          · rw [List.append_assoc, List.append_assoc, e3, e2, e1]
          · intro hnil
            have h1n : a1 = [] :=
              (List.append_eq_nil.mp (List.append_eq_nil.mp hnil).1).1
            rw [h1n] at l1
            exact absurd l1 (by decide)
          · intro hdot
            rcases List.mem_append.mp hdot with h' | h'
            · rcases List.mem_append.mp h' with h'' | h''
              · have := m1 '.' h''
                revert this; decide
              · have := m2 '.' h''
                revert this; decide
            · have := m3 '.' h'
              revert this; decide
        · rw [if_neg hw] at h; simp at h

theorem matchStmtAt_spec {cs stmt rest} (h : matchStmtAt cs = some (stmt, rest)) :
    stmt ++ rest = cs ∧ (matchOpenPhrase cs).isSome = true ∧
      ∃ body, stmt = body ++ ['.'] ∧ '.' ∉ body := by
  unfold matchStmtAt at h
  match h1 : matchOpenPhrase cs with
  | none => rw [h1] at h; simp at h
  | some (a, r1) =>
    rw [h1] at h
    simp only [Option.some_bind] at h
    match h2 : takeWhileSplit (fun c => c ≠ '.') r1 with
    | (b, r2) =>
      rw [h2] at h
      match r2 with
      | [] => simp at h
      | c :: rest' =>
        simp only at h
        by_cases hc : c = '.'
        · rw [if_pos hc] at h
          simp only [Option.some.injEq, Prod.mk.injEq] at h
          obtain ⟨rfl, rfl⟩ := h
          obtain ⟨ea, hane, hadot⟩ := matchOpenPhrase_spec h1
          obtain ⟨eb, mb⟩ := takeWhileSplit_spec h2
          subst hc
          refine ⟨?_, by rfl, a ++ b, by simp, ?_⟩
          · rw [List.append_assoc, List.append_assoc]
            simpa [eb] using ea
          · intro hdot
            rcases List.mem_append.mp hdot with h' | h'
            · exact hadot h'
            · have := mb '.' h'
              simp at this
        · rw [if_neg hc] at h; simp at h

theorem drop_of_drop_append {α} {full pre post : List α} {pos : Nat}
    (h : full.drop pos = pre ++ post) : full.drop (pos + pre.length) = post := by
  rw [← List.drop_drop, h, List.drop_left]

theorem getD_of_drop {α} (d : α) :
    ∀ (l : List α) (n : Nat) {c : α} {cs : List α},
      l.drop n = c :: cs → l.getD n d = c := by
  intro l
  induction l with
  | nil => intro n c cs h; simp at h
  | cons x xs ih =>
    intro n c cs h
    match n with
    | 0 =>
      simp only [List.drop_zero, List.cons.injEq] at h
      simp [h.1]
    | m + 1 =>
      simp only [List.drop_succ_cons] at h
      simpa [List.getD_cons_succ] using ih m h

theorem drop_succ_of_drop_cons {α} {l : List α} {pos : Nat} {c : α} {cs : List α}
    (h : l.drop pos = c :: cs) : l.drop (pos + 1) = cs := by
  have h' : l.drop pos = [c] ++ cs := by simpa using h
  simpa using drop_of_drop_append h'

theorem scanFrom_start_le :
    ∀ fuel prevW pos text s e, (s, e) ∈ scanFrom fuel prevW pos text → pos ≤ s := by
  intro fuel
  induction fuel with
  | zero => intro prevW pos text s e h; simp [scanFrom] at h
  | succ n ih =>
    intro prevW pos text s e h
    match text with
    | [] => simp [scanFrom] at h
    | c :: cs =>
      cases prevW with
      | true =>
        simp only [scanFrom, if_pos] at h
        have := ih _ _ _ _ _ h
        omega
      | false =>
        simp only [scanFrom, Bool.false_eq_true, if_false] at h
        split at h
        · rename_i stmt rest hm
          rcases List.mem_cons.mp h with heq | htail
          · rw [Prod.mk.injEq] at heq
            omega
          · have := ih _ _ _ _ _ htail
            omega
        · have := ih _ _ _ _ _ h
          omega

theorem scanFrom_sound (full : List Char) :
    ∀ fuel pos prevW,
      (prevW = false → pos = 0 ∨ isWordChar (full.getD (pos - 1) ' ') = false) →
      ∀ s e, (s, e) ∈ scanFrom fuel prevW pos (full.drop pos) →
        pos ≤ s ∧ (s = 0 ∨ isWordChar (full.getD (s - 1) ' ') = false) ∧
          ∃ stmt rest, matchStmtAt (full.drop s) = some (stmt, rest) ∧
            e = s + stmt.length := by
  intro fuel
  induction fuel with
  | zero => intro pos prevW _ s e h; simp [scanFrom] at h
  | succ n ih =>
    intro pos prevW hinv s e h
    match hdrop : full.drop pos with
    | [] => rw [hdrop] at h; simp [scanFrom] at h
    | c :: cs =>
      rw [hdrop] at h
      have hcs : full.drop (pos + 1) = cs := drop_succ_of_drop_cons hdrop
      have hc : full.getD pos ' ' = c := getD_of_drop ' ' full pos hdrop
      cases prevW with
      | true =>
        simp only [scanFrom, if_pos] at h
        rw [← hcs] at h
        have := ih (pos + 1) (isWordChar c)
          (fun hfw => Or.inr (by rw [Nat.add_sub_cancel, hc]; simpa using hfw)) s e h
        exact ⟨by omega, this.2.1, this.2.2⟩
      | false =>
        simp only [scanFrom, Bool.false_eq_true, if_false] at h
        split at h
        · rename_i stmt rest hm
          rcases List.mem_cons.mp h with heq | htail
          · rw [Prod.mk.injEq] at heq
            obtain ⟨rfl, rfl⟩ := heq
            refine ⟨Nat.le_refl _, hinv rfl, stmt, rest, ?_, rfl⟩
            rw [hdrop]
            exact hm
          · obtain ⟨happ, _, body, hstmt, _⟩ := matchStmtAt_spec hm
            have hrest : full.drop (pos + stmt.length) = rest := by
              apply drop_of_drop_append
              rw [hdrop, happ]
            have hdot : full.getD (pos + stmt.length - 1) ' ' = '.' := by
              have hlen : stmt.length = body.length + 1 := by simp [hstmt]
              have hb : full.drop (pos + body.length) = '.' :: rest := by
                apply drop_of_drop_append
                rw [hdrop, ← happ, hstmt]
                simp
              have : pos + stmt.length - 1 = pos + body.length := by omega
              rw [this]
              exact getD_of_drop ' ' full _ hb
            rw [← hrest] at htail
            have := ih (pos + stmt.length) false
              (fun _ => Or.inr (by rw [hdot]; decide)) s e htail
            exact ⟨by omega, this.2.1, this.2.2⟩
        · rw [← hcs] at h
          have := ih (pos + 1) (isWordChar c)
            (fun hfw => Or.inr (by rw [Nat.add_sub_cancel, hc]; simpa using hfw)) s e h
          exact ⟨by omega, this.2.1, this.2.2⟩

theorem scanFrom_pairwise :
    ∀ fuel prevW pos text,
      List.Pairwise (fun p q => p.1 < q.1) (scanFrom fuel prevW pos text) := by
  intro fuel
  induction fuel with
  | zero => intro prevW pos text; simp [scanFrom]
  | succ n ih =>
    intro prevW pos text
    match text with
    | [] => simp [scanFrom]
    | c :: cs =>
      cases prevW with
      | true => simp only [scanFrom, if_pos]; exact ih _ _ _
      | false =>
        simp only [scanFrom, Bool.false_eq_true, if_false]
        split
        · rename_i stmt rest hm
          refine List.Pairwise.cons ?_ (ih _ _ _)
          intro q hq
          have hle := scanFrom_start_le _ _ _ _ _ _ (by exact hq)
          obtain ⟨_, _, body, hstmt, _⟩ := matchStmtAt_spec hm
          have : stmt.length = body.length + 1 := by simp [hstmt]
          simp only
          omega
        · exact ih _ _ _

theorem searchAt_false_no_stmt :
    ∀ (text : List Char) prevW,
      searchAt (fun cs => (matchOpenPhrase cs).isSome) prevW text = false →
      ∀ fuel pos, scanFrom fuel prevW pos text = [] := by
  intro text
  induction text with
  | nil =>
    intro prevW _ fuel pos
    match fuel with
    | 0 => rfl
    | _ + 1 => rfl
  | cons c cs ih =>
    intro prevW hs fuel pos
    simp only [searchAt, Bool.or_eq_false_iff, Bool.and_eq_false_iff] at hs
    match fuel with
    | 0 => rfl
    | n + 1 =>
      cases prevW with
      | true => simp only [scanFrom, if_pos]; exact ih _ hs.2 _ _
      | false =>
        have hph : matchOpenPhrase (c :: cs) = none := by
          rcases hs.1 with h' | h'
          · simp at h'
          · match hp : matchOpenPhrase (c :: cs) with
            | none => rfl
            | some _ => rw [hp] at h'; simp at h'
        have hm : matchStmtAt (c :: cs) = none := by
          unfold matchStmtAt
          rw [hph]
          rfl
        simp only [scanFrom, Bool.false_eq_true, if_false, hm]
        exact ih _ hs.2 _ _

theorem escapeNewlines_no_nl : ∀ l : List Char, '\n' ∉ escapeNewlines l := by
  intro l
  induction l with
  | nil => simp [escapeNewlines]
  | cons c cs ih =>
    simp only [escapeNewlines]
    by_cases hc : c = '\n'
    · rw [if_pos hc]
      intro hmem
      rcases List.mem_cons.mp hmem with h' | h'
      · exact absurd h' (by decide)
      · rcases List.mem_cons.mp h' with h'' | h''
        · exact absurd h'' (by decide)
        · exact ih h''
    · rw [if_neg hc]
      intro hmem
      rcases List.mem_cons.mp hmem with h' | h'
      · exact hc h'.symm
      · exact ih h'

theorem mem_scan_findings (u : Unit) (f : Finding) :
    f ∈ (scan_unit u).findings.getD [] ↔
      ∃ s e, (s, e) ∈ findStmts (srcOf u) ∧ classifySpan u (srcOf u) s e = some f := by
  show f ∈ (findStmts (srcOf u)).filterMap (fun p => classifySpan u (srcOf u) p.1 p.2) ↔ _
  rw [List.mem_filterMap]
  constructor
  · rintro ⟨⟨s, e⟩, hm, hc⟩
    exact ⟨s, e, hm, hc⟩
  · rintro ⟨s, e, hm, hc⟩
    exact ⟨(s, e), hm, hc⟩

theorem classifySpan_some {u : Unit} {src : List Char} {s e : Nat} {f : Finding}
    (h : classifySpan u src s e = some f) :
    f.starting_line = startingLineAbs u src s ∧
      f.ending_line = endingLineAbs u src s e ∧
      f.snippet = String.mk (escapeNewlines (get_line_snippet src s e)) ∧
      f.severity = "error" := by
  simp only [classifySpan] at h
  split at h
  · rw [Option.some.injEq] at h
    subst h
    exact ⟨rfl, rfl, rfl, rfl⟩
  · split at h
    · rw [Option.some.injEq] at h
      subst h
      exact ⟨rfl, rfl, rfl, rfl⟩
    · exact absurd h (by simp)

/-- C7: `scan_unit` never mutates its input (it is a pure Lean function of the
unit value) and returns a new unit whose fields other than `findings` equal the
input's, with `findings` set to the computed list. -/
theorem scan_unit_preserves_fields (u : Unit) :
    (scan_unit u).pgm_name = u.pgm_name ∧
      (scan_unit u).inc_name = u.inc_name ∧
      (scan_unit u).type = u.type ∧
      (scan_unit u).name = u.name ∧
      (scan_unit u).start_line = u.start_line ∧
      (scan_unit u).end_line = u.end_line ∧
      (scan_unit u).code = u.code ∧
      (scan_unit u).findings =
        some ((findStmts (srcOf u)).filterMap
          (fun p => classifySpan u (srcOf u) p.1 p.2)) :=
  ⟨rfl, rfl, rfl, rfl, rfl, rfl, rfl, rfl⟩

/-- C8: scanning is a pure, deterministic, idempotent function of the unit's
code and metadata: rescanning `scan_unit u` (whose attached findings are
ignored by the scan) reproduces the same output, and equal inputs give equal
outputs. -/
theorem scan_unit_idempotent (u v : Unit) (huv : u = v) :
    scan_unit (scan_unit u) = scan_unit u ∧ scan_unit u = scan_unit v :=
  ⟨rfl, congrArg scan_unit huv⟩

/-- C8 witness at a concrete unit. -/
theorem scan_unit_idempotent_witness :
    uB = uB ∧ (scan_unit (scan_unit uB) = scan_unit uB ∧ scan_unit uB = scan_unit uB) :=
  ⟨rfl, scan_unit_idempotent uB uB rfl⟩

/-- C10: the computed findings do not depend on the input's `findings` field;
the output's `findings` field is always an explicit list (never `none`),
obtained from the statement spans by a one-or-zero-findings-per-span
`filterMap` (so each statement contributes at most one finding, and the list
length is bounded by the number of statements); and the statement spans — and
hence the findings derived from them in order — are strictly ordered by start
offset. -/
theorem scan_unit_findings_independent_ordered (u : Unit) (fs : Option (List Finding)) :
    scan_unit { u with findings := fs } = scan_unit u ∧
      (scan_unit u).findings =
        some ((findStmts (srcOf u)).filterMap
          (fun p => classifySpan u (srcOf u) p.1 p.2)) ∧
      ((scan_unit u).findings.getD []).length ≤ (findStmts (srcOf u)).length ∧
      List.Pairwise (fun p q => p.1 < q.1) (findStmts (srcOf u)) :=
  ⟨rfl, rfl, List.length_filterMap_le _ _, scanFrom_pairwise _ _ _ _⟩

/-- C3: a unit whose code has no case-insensitive whole-word occurrence of the
opening keyword phrase `OPEN DATASET` yields zero statement matches and an
empty findings list; `scan_unit` is total, and in particular empty code gives
zero matches and zero findings (see the witness). -/
theorem scan_unit_no_phrase_no_findings (u : Unit)
    (h : hasOpenDataset (srcOf u) = false) :
    findStmts (srcOf u) = [] ∧ (scan_unit u).findings = some [] := by
  have hz : findStmts (srcOf u) = [] :=
    searchAt_false_no_stmt (srcOf u) false h _ _
  refine ⟨hz, ?_⟩
  show some ((findStmts (srcOf u)).filterMap _) = some []
  rw [hz]
  rfl

/-- C3 witness: the empty-code unit has no occurrence, no matches, and no
findings. -/
theorem scan_unit_no_phrase_no_findings_witness :
    hasOpenDataset (srcOf uEmpty) = false ∧
      (findStmts (srcOf uEmpty) = [] ∧ (scan_unit uEmpty).findings = some []) :=
  ⟨by decide, scan_unit_no_phrase_no_findings uEmpty (by decide)⟩

/-- C1: for every matched OPEN DATASET statement with no mode clause (neither
`IN TEXT MODE` nor `IN BINARY MODE` matches the statement text), the
classifier emits exactly one finding for that statement, of kind
`OpenDatasetNoMode` with severity `error`, which appears in the unit's
findings, and never an `OpenDatasetTextNoEncoding` finding for the same
statement (the mode check short-circuits the encoding check). -/
theorem scan_unit_no_mode_finding (u : Unit) (s e : Nat)
    (hmem : (s, e) ∈ findStmts (srcOf u))
    (hmode : searchMode (stmtText (srcOf u) s e) = false) :
    ∃ f, classifySpan u (srcOf u) s e = some f ∧
      f.issues_type = "OpenDatasetNoMode" ∧
      f.severity = "error" ∧
      f.issues_type ≠ "OpenDatasetTextNoEncoding" ∧
      f ∈ (scan_unit u).findings.getD [] := by
  have hc : classifySpan u (srcOf u) s e =
      some (mkFinding u (srcOf u) s e "OpenDatasetNoMode" msgNoMode sugNoMode) := by
    simp only [classifySpan, hmode]
    rfl
  refine ⟨_, hc, rfl, rfl, ?_, (mem_scan_findings u _).mpr ⟨s, e, hmem, hc⟩⟩
  show ("OpenDatasetNoMode" : String) ≠ "OpenDatasetTextNoEncoding"
  decide

/-- C1 witness: `OPEN DATASET F.` has one statement span, no mode clause, and
the no-mode finding. -/
theorem scan_unit_no_mode_finding_witness :
    ((0, 15) ∈ findStmts (srcOf uB) ∧
        searchMode (stmtText (srcOf uB) 0 15) = false) ∧
      ∃ f, classifySpan uB (srcOf uB) 0 15 = some f ∧
        f.issues_type = "OpenDatasetNoMode" ∧
        f.severity = "error" ∧
        f.issues_type ≠ "OpenDatasetTextNoEncoding" ∧
        f ∈ (scan_unit uB).findings.getD [] :=
  ⟨⟨by decide, by decide⟩, scan_unit_no_mode_finding uB 0 15 (by decide) (by decide)⟩

/-- C2: for every matched statement that does contain a mode clause: if it is
text mode and `ENCODING` followed by a non-whitespace token is absent, the
classifier emits exactly one `OpenDatasetTextNoEncoding` finding, which
appears in the unit's findings; otherwise (binary mode, or text mode with such
an encoding clause) it emits no finding for that statement. -/
theorem scan_unit_mode_present_classification (u : Unit) (s e : Nat)
    (hmem : (s, e) ∈ findStmts (srcOf u))
    (hmode : searchMode (stmtText (srcOf u) s e) = true) :
    (searchTextMode (stmtText (srcOf u) s e) = true →
        searchEncoding (stmtText (srcOf u) s e) = false →
        ∃ f, classifySpan u (srcOf u) s e = some f ∧
          f.issues_type = "OpenDatasetTextNoEncoding" ∧
          f ∈ (scan_unit u).findings.getD []) ∧
      (searchTextMode (stmtText (srcOf u) s e) = false ∨
          searchEncoding (stmtText (srcOf u) s e) = true →
        classifySpan u (srcOf u) s e = none) := by
  constructor
  · intro htm henc
    have hc : classifySpan u (srcOf u) s e =
        some (mkFinding u (srcOf u) s e "OpenDatasetTextNoEncoding"
          msgTextNoEnc sugTextNoEnc) := by
      simp only [classifySpan, hmode, htm, henc]
      rfl
    exact ⟨_, hc, rfl, (mem_scan_findings u _).mpr ⟨s, e, hmem, hc⟩⟩
  · intro hor
    rcases hor with htm | henc
    · simp only [classifySpan, hmode, htm, Bool.not_true, Bool.false_and]
      rfl
    · simp only [classifySpan, hmode, henc, Bool.not_true, Bool.and_false]
      rfl

/-- C2 witness: `OPEN DATASET F IN TEXT MODE.` has a mode clause; text mode
without encoding yields the encoding finding. -/
theorem scan_unit_mode_present_classification_witness :
    ((0, 28) ∈ findStmts (srcOf uTextNoEnc) ∧
        searchMode (stmtText (srcOf uTextNoEnc) 0 28) = true) ∧
      ((searchTextMode (stmtText (srcOf uTextNoEnc) 0 28) = true →
          searchEncoding (stmtText (srcOf uTextNoEnc) 0 28) = false →
          ∃ f, classifySpan uTextNoEnc (srcOf uTextNoEnc) 0 28 = some f ∧
            f.issues_type = "OpenDatasetTextNoEncoding" ∧
            f ∈ (scan_unit uTextNoEnc).findings.getD []) ∧
        (searchTextMode (stmtText (srcOf uTextNoEnc) 0 28) = false ∨
            searchEncoding (stmtText (srcOf uTextNoEnc) 0 28) = true →
          classifySpan uTextNoEnc (srcOf uTextNoEnc) 0 28 = none)) :=
  ⟨⟨by decide, by decide⟩,
    scan_unit_mode_present_classification uTextNoEnc 0 28 (by decide) (by decide)⟩

/-- C4: every finding's `starting_line` is the unit's base offset
(`start_line`, defaulting to 0 when absent) plus the 1-based line number of
the match start (newlines before the match start, plus 1), and `ending_line`
is `starting_line` plus (newlines in the snippet + 1). -/
theorem scan_unit_line_numbers (u : Unit) (f : Finding)
    (hf : f ∈ (scan_unit u).findings.getD []) :
    ∃ s e, (s, e) ∈ findStmts (srcOf u) ∧
      f.starting_line =
        u.start_line.getD 0 + ((countNl ((srcOf u).take s) + 1 : Nat) : Int) ∧
      f.ending_line =
        f.starting_line +
          ((countNl (get_line_snippet (srcOf u) s e) + 1 : Nat) : Int) := by
  obtain ⟨s, e, hm, hc⟩ := (mem_scan_findings u f).mp hf
  obtain ⟨h1, h2, _, _⟩ := classifySpan_some hc
  refine ⟨s, e, hm, ?_, ?_⟩
  · rw [h1]
    rfl
  · rw [h2, h1]
    rfl

/-- C4 witness: with `start_line = 10` and code `"A.\nOPEN DATASET F.\n"`,
the finding's `starting_line` is `10 + 2 = 12`. -/
theorem scan_unit_line_numbers_witness :
    f10 ∈ (scan_unit u10).findings.getD [] ∧
      (∃ s e, (s, e) ∈ findStmts (srcOf u10) ∧
        f10.starting_line =
          u10.start_line.getD 0 + ((countNl ((srcOf u10).take s) + 1 : Nat) : Int) ∧
        f10.ending_line =
          f10.starting_line +
            ((countNl (get_line_snippet (srcOf u10) s e) + 1 : Nat) : Int)) ∧
      f10.starting_line = 12 :=
  ⟨by decide, scan_unit_line_numbers u10 f10 (by decide), by decide⟩

/-- C5: every finding's snippet is the full source line(s) spanning the match
as extracted by `get_line_snippet` (from just after the last newline before
the match start to just before the first newline after the match end), with
each newline replaced by the two-character sequence backslash-n; hence the
attached snippet contains no raw newline character. -/
theorem scan_unit_snippet (u : Unit) (f : Finding)
    (hf : f ∈ (scan_unit u).findings.getD []) :
    ∃ s e, (s, e) ∈ findStmts (srcOf u) ∧
      f.snippet = String.mk (escapeNewlines (get_line_snippet (srcOf u) s e)) ∧
      '\n' ∉ f.snippet.data := by
  obtain ⟨s, e, hm, hc⟩ := (mem_scan_findings u f).mp hf
  obtain ⟨_, _, h3, _⟩ := classifySpan_some hc
  refine ⟨s, e, hm, h3, ?_⟩
  rw [h3]
  exact escapeNewlines_no_nl _

/-- C5 witness: a statement spanning two physical lines; the snippet is the
two full lines with the embedded newline escaped to backslash-n. -/
theorem scan_unit_snippet_witness :
    f5 ∈ (scan_unit u5).findings.getD [] ∧
      (∃ s e, (s, e) ∈ findStmts (srcOf u5) ∧
        f5.snippet = String.mk (escapeNewlines (get_line_snippet (srcOf u5) s e)) ∧
        '\n' ∉ f5.snippet.data) ∧
      f5.snippet = "OPEN DATASET\\nF." :=
  ⟨by decide, scan_unit_snippet u5 f5 (by decide), by decide⟩

/-- C6: every matched statement span starts at a case-insensitive whole-word
occurrence of the opening phrase (word boundary before it), contains no period
before its final character, and ends with (and includes) the first period
after the opening phrase; in particular a period exists after the match start,
so a phrase occurrence not followed by any period yields no span starting
there. -/
theorem findStmts_span_shape (text : List Char) (s e : Nat)
    (h : (s, e) ∈ findStmts text) :
    (matchOpenPhrase (text.drop s)).isSome = true ∧
      (s = 0 ∨ isWordChar (text.getD (s - 1) ' ') = false) ∧
      '.' ∈ text.drop s ∧
      ∃ body, stmtText text s e = body ++ ['.'] ∧ '.' ∉ body ∧
        e = s + body.length + 1 := by
  have h0 : (s, e) ∈ scanFrom text.length false 0 (text.drop 0) := by
    rw [List.drop_zero]
    exact h
  obtain ⟨_, hb, stmt, rest, hm, he⟩ :=
    scanFrom_sound text text.length 0 false (fun _ => Or.inl rfl) s e h0
  obtain ⟨happ, hph, body, hstmt, hdot⟩ := matchStmtAt_spec hm
  have hlen : stmt.length = body.length + 1 := by simp [hstmt]
  have htake : stmtText text s e = stmt := by
    unfold stmtText
    rw [← happ]
    have hes : e - s = stmt.length := by omega
    rw [hes, List.take_left]
  refine ⟨hph, hb, ?_, body, ?_, hdot, ?_⟩
  · rw [← happ, hstmt]
    simp
  · rw [htake, hstmt]
  · omega

/-- C6 witness: the span of `OPEN DATASET F.` inside
`"A.\nOPEN DATASET F.\n"`. -/
theorem findStmts_span_shape_witness :
    ((3, 18) ∈ findStmts "A.\nOPEN DATASET F.\n".data) ∧
      ((matchOpenPhrase ("A.\nOPEN DATASET F.\n".data.drop 3)).isSome = true ∧
        (3 = 0 ∨ isWordChar ("A.\nOPEN DATASET F.\n".data.getD (3 - 1) ' ') = false) ∧
        '.' ∈ "A.\nOPEN DATASET F.\n".data.drop 3 ∧
        ∃ body, stmtText "A.\nOPEN DATASET F.\n".data 3 18 = body ++ ['.'] ∧
          '.' ∉ body ∧ 18 = 3 + body.length + 1) :=
  ⟨by decide, findStmts_span_shape _ 3 18 (by decide)⟩

/-- C9: the batch endpoint maps `scan_unit` over the list in order and keeps
only scanned units with a non-empty findings list, while the single-unit
endpoint always returns the scanned unit; for three units where only the
second has a defect, the batch result is exactly that one annotated unit. -/
theorem endpoints_batch_and_single (us : List Unit) (u : Unit) :
    scan_rule111_array us =
        (us.map scan_unit).filter (fun r => !(r.findings.getD []).isEmpty) ∧
      scan_rule111_single u = scan_unit u ∧
      scan_rule111_array [uA, uB, uC] = [scan_unit uB] := by
  refine ⟨?_, rfl, by decide⟩
  induction us with
  | nil => rfl
  | cons v vs ih =>
    by_cases hb : ((scan_unit v).findings.getD []).isEmpty
    · simp [scan_rule111_array, hb, List.filter_cons, ih]
    · simp only [Bool.not_eq_true] at hb
      simp [scan_rule111_array, hb, List.filter_cons, ih]

end Rule111
